import Mathlib

/-!
Verification of the lunr-mcp server (`src/lunr_mcp/server.py`) against its
natural-language specification.

The Python source is shallowly embedded below.  Python strings are modelled as
Lean `String` (a list of characters); the handful of Python string primitives
the server uses (`lower`, `split`, `strip`, `in`-substring test, `startswith`,
`rsplit`, `"#"`-splitting) are re-implemented as structurally recursive Lean
functions on character lists, matching Python's semantics on the ASCII inputs
the server manipulates.
-/

namespace LunrMcp

/-! ### Python string primitives -/

/-- Python's `c.lower()` for a single ASCII character (`str.lower` maps
`A`-`Z` to `a`-`z` and leaves other characters unchanged). -/
def pyLowerChar (c : Char) : Char := c.toLower

/-- Python's `s.lower()` restricted to ASCII: lowercase every character. -/
def pyLower (s : String) : String := String.mk (s.data.map pyLowerChar)

/-- `leadsWith n h` is true when list `h` begins with list `n`
(Python's `h.startswith(n)` on the character level). -/
def leadsWith : List Char → List Char → Bool
  | [], _ => true
  | _ :: _, [] => false
  | a :: as, b :: bs => a == b && leadsWith as bs

/-- `substrAux n h` is true when `n` occurs as a contiguous sublist of `h`. -/
def substrAux (n : List Char) : List Char → Bool
  | [] => n.isEmpty
  | c :: t => leadsWith n (c :: t) || substrAux n t

/-- Python's `needle in hay` substring test. -/
def strContains (hay needle : String) : Bool := substrAux needle.data hay.data

/-- Python's `s.startswith(p)`. -/
def pyStartsWith (s p : String) : Bool := leadsWith p.data s.data

/-- Helper for `pyWords`: split a character list on whitespace, keeping
empty chunks (they are filtered out afterwards, as `str.split()` does). -/
def splitWsGo : List Char → List Char → List (List Char)
  | [], acc => [acc.reverse]
  | c :: cs, acc =>
    if c.isWhitespace then acc.reverse :: splitWsGo cs []
    else splitWsGo cs (c :: acc)

/-- Python's `s.split()` (no argument): maximal runs of non-whitespace
characters, with no empty tokens. -/
def pyWords (s : String) : List String :=
  ((splitWsGo s.data []).filter (fun w => w ≠ [])).map String.mk

/-- Python's `" ".join(parts)`. -/
def joinSpace : List String → String
  | [] => ""
  | [x] => x
  | x :: xs => x ++ " " ++ joinSpace xs

/-- Python's `s.split(sep)[0]` specialised to one separator character:
the prefix of `s` before the first occurrence of `sep`. -/
def beforeChar (sep : Char) (s : String) : String :=
  String.mk (s.data.takeWhile (fun c => c ≠ sep))

/-- `url.split("#")[0]`: a URL with any fragment suffix stripped.
This is the "base path" of a document record. -/
def stripFrag (s : String) : String := beforeChar '#' s

/-- Python's `s.split(sep)` for a one-character separator: every chunk,
including empty ones.  The result always has `count sep + 1` entries. -/
def splitOnChar (sep : Char) : List Char → List (List Char)
  | [] => [[]]
  | c :: cs =>
    if c = sep then [] :: splitOnChar sep cs
    else
      match splitOnChar sep cs with
      | [] => [[c]]
      | p :: ps => (c :: p) :: ps

/-- Python's `s.strip()`: drop leading and trailing whitespace. -/
def pyStrip (s : String) : String :=
  String.mk (((s.data.dropWhile Char.isWhitespace).reverse.dropWhile
    Char.isWhitespace).reverse)

/-! ### Data model: document records and (possibly sharded) indexes

A Lunr index object is a JSON object whose `documents` key holds document
records with fields `t` (title), `u` (URL path) and `b` (breadcrumb list).
The index data handed to the tools is either one such object or a list of
them (`indexes = index_data if isinstance(index_data, list) else
[index_data]`). -/

/-- One document record of a Lunr search index: `t` title, `u` URL path
(possibly with a `#fragment` suffix), `b` breadcrumb labels. -/
structure Doc where
  t : String
  u : String
  b : List String
deriving DecidableEq

/-- One index object: its `documents` list. -/
structure IndexObj where
  documents : List Doc
deriving DecidableEq

/-- The fetched index JSON: a single index object or an array of them. -/
inductive IndexData where
  | single (o : IndexObj)
  | multi (os : List IndexObj)
deriving DecidableEq

/-- `indexes = index_data if isinstance(index_data, list) else [index_data]`. -/
def allObjs : IndexData → List IndexObj
  | .single o => [o]
  | .multi os => os

/-- All document records of an index in flattened traversal order:
objects in order, records within an object in order. -/
def allDocs (idx : IndexData) : List Doc :=
  (allObjs idx).foldr (fun o acc => o.documents ++ acc) []

/-! ### Ranker: scoring (`search_items`, server.py lines 112-147) -/

/-- `title = doc.get("t", "").lower()` of a record. -/
def titleLower (d : Doc) : String := pyLower d.t

/-- `path = " ".join(breadcrumb).lower()` of a record. -/
def crumbJoin (d : Doc) : String := pyLower (joinSpace d.b)

/-- `query_lower in title or query_lower in path`: the exact-phrase test. -/
def phraseHit (q : String) (d : Doc) : Bool :=
  strContains (titleLower d) (pyLower q) || strContains (crumbJoin d) (pyLower q)

/-- `word in title or word in path` for one query word. -/
def wordHit (w : String) (d : Doc) : Bool :=
  strContains (titleLower d) w || strContains (crumbJoin d) w

/-- `sum(1 for word in query_words if word in title or word in path)`:
the number of query word tokens (counted positionally) hitting the record. -/
def matchCount (q : String) (d : Doc) : Nat :=
  (pyWords (pyLower q)).countP (fun w => wordHit w d)

/-- The score the Ranker assigns to one record, straight from the code:
`100` on an exact-phrase hit, otherwise `count * 10` when at least one
query word hits, otherwise `none` (the record is skipped via `continue`). -/
def scoreOf (q : String) (d : Doc) : Option Nat :=
  if phraseHit q d then some 100
  else if (pyWords (pyLower q)).any (fun w => wordHit w d) then
    some (matchCount q d * 10)
  else none

/-- Modelled from the spec's scoring sentence, for comparison with
`scoreOf`: 100 if the full lowercase query string occurs as a substring of
the title or of the breadcrumb-join; else 10 x (count of query words,
counted positionally, occurring as a substring in title or breadcrumb-join)
when that count is positive; else the record is excluded (`none`). -/
def specScore (q : String) (d : Doc) : Option Nat :=
  let tokens := pyWords (pyLower q)
  let matched := tokens.filter (fun w => wordHit w d)
  if strContains (titleLower d) (pyLower q) || strContains (crumbJoin d) (pyLower q) then
    some 100
  else if 0 < matched.length then some (10 * matched.length)
  else none

/-! ### Ranker: deduplication, sorting, truncation -/

/-- An entry of the internal `results` list of `search_items`, with its
transient `_score` field. -/
structure RankedResult where
  title : String
  url : String
  path : List String
  score : Nat
deriving DecidableEq

/-- What `search_items` returns for one record (the `_score` key is
stripped at the end). -/
structure SearchResult where
  title : String
  url : String
  path : List String
deriving DecidableEq

/-- The results-list entry built for a matching record:
`{"title": t, "url": base_url + base_url_path, "path": b, "_score": s}`. -/
def mkResult (baseUrl : String) (d : Doc) (s : Nat) : RankedResult :=
  { title := d.t, url := baseUrl ++ stripFrag d.u, path := d.b, score := s }

/-- The record-collection loop of `search_items`: walk the flattened
records, skip non-matching ones (`continue`), and deduplicate by base path
via the `seen_urls` set (modelled as a list), keeping the first record seen
for each base path. -/
def collectGo (baseUrl q : String) : List Doc → List String → List RankedResult
  | [], _ => []
  | d :: ds, seen =>
    match scoreOf q d with
    | none => collectGo baseUrl q ds seen
    | some s =>
      if stripFrag d.u ∈ seen then collectGo baseUrl q ds seen
      else mkResult baseUrl d s :: collectGo baseUrl q ds (stripFrag d.u :: seen)

/-- The value of the `seen_urls` set after the collection loop has
processed a list of records. -/
def seenAfter (q : String) : List Doc → List String → List String
  | [], seen => seen
  | d :: ds, seen =>
    match scoreOf q d with
    | none => seenAfter q ds seen
    | some _ =>
      if stripFrag d.u ∈ seen then seenAfter q ds seen
      else seenAfter q ds (stripFrag d.u :: seen)

/-- The `results` list of `search_items` just before sorting. -/
def collect (idx : IndexData) (q baseUrl : String) : List RankedResult :=
  collectGo baseUrl q (allDocs idx) []

/-- Lexicographic code-point comparison of character lists: Python's `<=`
on strings restricted to lists of equal-or-unequal length. -/
def charListLe : List Char → List Char → Bool
  | [], _ => true
  | _ :: _, [] => false
  | a :: as, b :: bs =>
    if a.toNat < b.toNat then true
    else if b.toNat < a.toNat then false
    else charListLe as bs

/-- The sort key of `results.sort(key=lambda x: (-x["_score"], x["title"]))`
as a total preorder: `a` comes no later than `b` when `a` scores higher, or
scores equal and `a.title <= b.title` by code points. -/
def resultLE (a b : RankedResult) : Bool :=
  if b.score < a.score then true
  else if a.score < b.score then false
  else charListLe a.title.data b.title.data

/-- `resultLE` as a Prop-valued relation for `List.insertionSort`. -/
def keyLE (a b : RankedResult) : Prop := resultLE a b = true

instance : DecidableRel keyLE := fun a b => decEq (resultLE a b) true

/-- The sorted results list of `search_items` (Python's `list.sort` is a
stable sort by the key `(-score, title)`; a stable sort wrt a total
preorder is unique, and `List.insertionSort` is stable). -/
def rankedSorted (idx : IndexData) (q baseUrl : String) : List RankedResult :=
  List.insertionSort keyLE (collect idx q baseUrl)

/-- Dropping the transient `_score` field for the returned list. -/
def stripScore (r : RankedResult) : SearchResult :=
  { title := r.title, url := r.url, path := r.path }

/-- `search_items` on an explicit flattened record list: collect, sort,
truncate to `limit`, strip the score. -/
def searchDocs (docs : List Doc) (q : String) (limit : Nat) (baseUrl : String) :
    List SearchResult :=
  ((List.insertionSort keyLE (collectGo baseUrl q docs [])).take limit).map stripScore

/-- `search_items(index_data, query, limit, base_url)` (server.py 112-147). -/
def search_items (idx : IndexData) (q : String) (limit : Nat) (baseUrl : String) :
    List SearchResult :=
  searchDocs (allDocs idx) q limit baseUrl

/-! ### `base_url` derivation (server.py 151-153) -/

/-- `index_url.rsplit("/", 1)[0]`: everything before the last `/`. -/
def beforeLastSlash (s : String) : String :=
  String.mk (((s.data.reverse.dropWhile (fun c => c ≠ '/')).drop 1).reverse)

/-- `base_url = index_url.rsplit("/", 1)[0] if "/" in index_url else index_url`. -/
def base_url (index_url : String) : String :=
  if index_url.data.contains '/' then beforeLastSlash index_url else index_url

/-! ### Page Resolver (`get_page_tool`, server.py 255-316) -/

/-- The path component of an `http://` or `https://` URL whose fragment has
already been stripped, as `urllib.parse.urlparse(u).path` computes it: drop
the scheme, drop the authority (up to the first `/` or `?`), keep from that
`/` up to the query string. -/
def urlPath (s : String) : String :=
  let rest := if pyStartsWith s "http://" then s.data.drop 7 else s.data.drop 8
  let afterHost := rest.dropWhile (fun c => c ≠ '/' && c ≠ '?')
  match afterHost with
  | '/' :: _ => String.mk (afterHost.takeWhile (fun c => c ≠ '?'))
  | _ => ""

/-- The location a `get_page` request matches against: fragment suffix
stripped, then reduced to its path component when it is a fully-qualified
URL (server.py 255-264). -/
def resolveLoc (location : String) : String :=
  let base := stripFrag location
  if pyStartsWith base "http://" || pyStartsWith base "https://" then urlPath base
  else base

/-- The nested scan-with-break over index objects of `get_page_tool`
(server.py 270-279): first record whose base path equals the stripped
location, within the first object containing one. -/
def findDocInObjs (loc : String) : List IndexObj → Option Doc
  | [] => none
  | o :: os =>
    match o.documents.find? (fun d => stripFrag d.u == loc) with
    | some d => some d
    | none => findDocInObjs loc os

/-- Outcome of the document lookup phase of `get_page_tool`. -/
inductive PageLookup where
  | found (d : Doc)
  | notFound (errMsg : String)
deriving DecidableEq

/-- The lookup phase of `get_page_tool`: resolve the location, scan for a
matching record, and on failure report `Page not found: <location>` with
the original unstripped location (server.py 255-285). -/
def get_page_lookup (idx : IndexData) (location : String) : PageLookup :=
  match findDocInObjs (resolveLoc location) (allObjs idx) with
  | some d => .found d
  | none => .notFound ("Page not found: " ++ location)

/-- Result of the HTTP fetch of the matched page's content: a status code
with a body, or a transport-level error with its description. -/
inductive FetchOutcome where
  | ok (status : Nat) (body : String)
  | error (msg : String)
deriving DecidableEq

/-- The successful return value of `get_page_tool`. -/
structure PageResult where
  title : String
  url : String
  path : List String
  content : String
deriving DecidableEq

/-- The content-rendering tail of `get_page_tool` (server.py 287-316):
status 200 converts the body (via the external HTML-to-markdown
collaborator `convert`); any other status or a transport error yields a
placeholder content body naming the record's title, while the call still
returns title, resolved URL and breadcrumb. -/
def render_page (convert : String → String) (d : Doc) (bUrl baseLocation : String)
    (outcome : FetchOutcome) : PageResult :=
  let pageUrl := bUrl ++ baseLocation
  let markdownText :=
    match outcome with
    | .ok status body =>
      if status = 200 then convert body
      else "# " ++ d.t ++ "\n\nContent not available (HTTP " ++ toString status ++ ")"
    | .error msg => "# " ++ d.t ++ "\n\nError fetching content: " ++ msg
  { title := d.t, url := pageUrl, path := d.b, content := markdownText }

/-- The full reply of `get_page_tool` once the index is available. -/
inductive PageResponse where
  | page (r : PageResult)
  | notFound (errMsg : String)
deriving DecidableEq

/-- `get_page_tool` after the index has loaded, as a function of the page
fetch's outcome. -/
def get_page_tool_model (convert : String → String) (idx : IndexData)
    (bUrl location : String) (outcome : FetchOutcome) : PageResponse :=
  match get_page_lookup idx location with
  | .notFound m => .notFound m
  | .found d => .page (render_page convert d bUrl (resolveLoc location) outcome)

/-! ### Startup configuration parsing (server.py 53-58)

`key, index_url = site_def.strip().split("=")` succeeds exactly when the
split yields two parts; any other arity raises `ValueError` and aborts
startup.  `Option` models the abort. -/

/-- One entry of `LUNR_SITES`:
`key, index_url = site_def.strip().split("=")` with the subsequent
`key.strip()` / `index_url.strip()`. -/
def parseSiteDef (entry : String) : Option (String × String) :=
  match splitOnChar '=' (pyStrip entry).data with
  | [k, v] => some (pyStrip (String.mk k), pyStrip (String.mk v))
  | _ => none

/-- The comma-separated entries of a `LUNR_SITES` value. -/
def siteEntries (cfg : String) : List String :=
  (splitOnChar ',' cfg.data).map String.mk

/-- The body of the startup parsing loop: each entry in order must parse,
and the first bad entry aborts the whole startup (`none`). -/
def parseSitesGo : List String → Option (List (String × String))
  | [] => some []
  | e :: es =>
    match parseSiteDef e with
    | none => none
    | some kv =>
      match parseSitesGo es with
      | none => none
      | some rest => some (kv :: rest)

/-- The startup parsing of `LUNR_SITES`: an empty configuration yields zero
sources (the `if sites_config:` guard); otherwise the loop over entries. -/
def parseSites (cfg : String) : Option (List (String × String)) :=
  if cfg = "" then some []
  else parseSitesGo (siteEntries cfg)

/-! ### Load Coordinator (`fetch_search_index` plus the load phase shared
by `search_tool` and `get_page_tool`, server.py 83-93, 160-207, 226-253)

Both tools run the same load phase for their source's index URL: return
the cached value when `_cache` has one; otherwise register a fetch task in
`_loading` unless one is already registered, await it (shielded) for up to
1.5 s, and on success unregister it.  The model is a state machine over the
per-URL slice of `(_cache, _loading)`; one `toolStep` is one tool call's
load phase with the awaited task's resolution supplied as a parameter, and
`bgStep` is the background completion of a previously registered task
(after a waiter timed out). -/

/-- The status of the task registered in `_loading` for the index URL:
still pending, completed with a failure (network or parse error), or
completed successfully with its value (a successful task stays registered
when every waiter had already timed out). -/
inductive TaskPhase where
  | pending
  | doneFail
  | doneSuccess (d : IndexData)
deriving DecidableEq

/-- The per-index-URL slice of the module state: `_cache[idx_url]` and
`_loading[idx_url]`. -/
structure CoordState where
  cache : Option IndexData
  inflight : Option TaskPhase
deriving DecidableEq

/-- How the await of the in-flight task turns out for the calling tool:
the fetch succeeds in time, fails in time, or the 1.5 s waiter deadline
elapses first. -/
inductive Resolution where
  | success (d : IndexData)
  | failure
  | timeout
deriving DecidableEq

/-- What the load phase hands back to the tool body: the index value, the
structured still-loading payload, or the fetch failure propagating as an
exception. -/
inductive ToolReply where
  | ok (d : IndexData)
  | stillLoading
  | hardFailure
deriving DecidableEq

/-- Awaiting a pending task (`await asyncio.wait_for(asyncio.shield(task),
timeout=1.5)`): on success the task body has stored the value in `_cache`
and the caller deletes the `_loading` entry; on failure the exception
propagates, skipping the deletion, so the failed task stays registered; on
timeout the task keeps running and stays registered. -/
def awaitPending (s : CoordState) (r : Resolution) : CoordState × ToolReply :=
  match r with
  | .success d => ({ cache := some d, inflight := none }, .ok d)
  | .failure => ({ cache := s.cache, inflight := some .doneFail }, .hardFailure)
  | .timeout => (s, .stillLoading)

/-- One tool call's load phase.  Cached: return the cached value at once.
Not cached: await the registered task (registering a fresh one only when
none is registered); awaiting an already-failed task re-raises its
exception immediately; awaiting an already-succeeded one returns its value
and unregisters it. -/
def toolStep (s : CoordState) (r : Resolution) : CoordState × ToolReply :=
  match s.cache with
  | some v => (s, .ok v)
  | none =>
    match s.inflight with
    | some .doneFail => (s, .hardFailure)
    | some (.doneSuccess d) => ({ cache := s.cache, inflight := none }, .ok d)
    | some .pending => awaitPending s r
    | none => awaitPending { cache := s.cache, inflight := some .pending } r

/-- Background completion of a registered pending task with no waiter: the
task body writes `_cache` on success, and nothing removes the `_loading`
entry in either case. -/
def bgStep (s : CoordState) (r : Resolution) : CoordState :=
  match s.inflight with
  | some .pending =>
    match r with
    | .success d => { cache := some d, inflight := some (.doneSuccess d) }
    | .failure => { cache := s.cache, inflight := some .doneFail }
    | .timeout => s
  | _ => s

/-- States the coordinator can actually be in, starting from the fresh
process state (nothing cached, nothing in flight). -/
inductive Reachable : CoordState → Prop where
  | init : Reachable { cache := none, inflight := none }
  | tool (r : Resolution) {s : CoordState} : Reachable s → Reachable (toolStep s r).1
  | bg (r : Resolution) {s : CoordState} : Reachable s → Reachable (bgStep s r)

/-! ### Helper lemmas -/

lemma charListLe_total : ∀ a b : List Char, charListLe a b = true ∨ charListLe b a = true := by
  intro a
  induction a with
  | nil => intro b; left; rfl
  | cons x xs ih =>
    intro b
    cases b with
    | nil => right; rfl
    | cons y ys =>
      by_cases h1 : x.toNat < y.toNat
      · left; simp [charListLe, h1]
      · by_cases h2 : y.toNat < x.toNat
        · right; simp [charListLe, h2]
        · rcases ih ys with h | h
          · left; simp [charListLe, h1, h2, h]
          · right; simp [charListLe, h1, h2, h]

lemma charListLe_trans : ∀ a b c : List Char,
    charListLe a b = true → charListLe b c = true → charListLe a c = true := by
  intro a
  induction a with
  | nil => intro b c _ _; rfl
  | cons x xs ih =>
    intro b c hab hbc
    cases b with
    | nil => simp [charListLe] at hab
    | cons y ys =>
      cases c with
      | nil => simp [charListLe] at hbc
      | cons z zs =>
        simp only [charListLe] at hab hbc ⊢
        by_cases h1 : x.toNat < y.toNat <;> by_cases h2 : y.toNat < z.toNat <;>
          by_cases h3 : x.toNat < z.toNat <;>
          simp [h1, h2, h3] at hab hbc ⊢ <;>
          first
            | omega
            | exact ih ys zs hab.2 hbc.2
            | exact ⟨by omega, ih ys zs hab.2 hbc.2⟩

lemma resultLE_iff (a b : RankedResult) :
    resultLE a b = true ↔
      b.score < a.score ∨ (a.score = b.score ∧ charListLe a.title.data b.title.data = true) := by
  unfold resultLE
  by_cases h1 : b.score < a.score
  · simp [h1]
  · by_cases h2 : a.score < b.score
    · simp [h1, h2]; omega
    · have he : a.score = b.score := by omega
      simp [h1, h2, he]

lemma resultLE_total (a b : RankedResult) : resultLE a b = true ∨ resultLE b a = true := by
  rcases Nat.lt_trichotomy a.score b.score with h | h | h
  · right; exact (resultLE_iff b a).mpr (Or.inl h)
  · rcases charListLe_total a.title.data b.title.data with hc | hc
    · left; exact (resultLE_iff a b).mpr (Or.inr ⟨h, hc⟩)
    · right; exact (resultLE_iff b a).mpr (Or.inr ⟨h.symm, hc⟩)
  · left; exact (resultLE_iff a b).mpr (Or.inl h)

lemma resultLE_trans (a b c : RankedResult) :
    resultLE a b = true → resultLE b c = true → resultLE a c = true := by
  intro hab hbc
  rcases (resultLE_iff a b).mp hab with h | ⟨h, hc1⟩
  · rcases (resultLE_iff b c).mp hbc with h' | ⟨h', _⟩
    · exact (resultLE_iff a c).mpr (Or.inl (by omega))
    · exact (resultLE_iff a c).mpr (Or.inl (by omega))
  · rcases (resultLE_iff b c).mp hbc with h' | ⟨h', hc2⟩
    · exact (resultLE_iff a c).mpr (Or.inl (by omega))
    · exact (resultLE_iff a c).mpr
        (Or.inr ⟨by omega, charListLe_trans _ _ _ hc1 hc2⟩)

instance : IsTotal RankedResult keyLE := ⟨fun a b => resultLE_total a b⟩

instance : IsTrans RankedResult keyLE := ⟨fun a b c => resultLE_trans a b c⟩

lemma collectGo_append (u q : String) : ∀ (xs ys : List Doc) (seen : List String),
    collectGo u q (xs ++ ys) seen =
      collectGo u q xs seen ++ collectGo u q ys (seenAfter q xs seen) := by
  intro xs
  induction xs with
  | nil => intro ys seen; rfl
  | cons d ds ih =>
    intro ys seen
    simp only [List.cons_append, collectGo, seenAfter]
    cases h : scoreOf q d with
    | none => simp [ih]
    | some s =>
      by_cases hm : stripFrag d.u ∈ seen <;> simp [hm, ih]

lemma seenAfter_cons_none {q : String} {d : Doc} (ds : List Doc) (seen : List String)
    (h : scoreOf q d = none) : seenAfter q (d :: ds) seen = seenAfter q ds seen := by
  simp [seenAfter, h]

lemma seenAfter_cons_mem {q : String} {d : Doc} {s : Nat} (ds : List Doc) (seen : List String)
    (h : scoreOf q d = some s) (hm : stripFrag d.u ∈ seen) :
    seenAfter q (d :: ds) seen = seenAfter q ds seen := by
  simp [seenAfter, h, hm]

lemma seenAfter_cons_new {q : String} {d : Doc} {s : Nat} (ds : List Doc) (seen : List String)
    (h : scoreOf q d = some s) (hm : stripFrag d.u ∉ seen) :
    seenAfter q (d :: ds) seen = seenAfter q ds (stripFrag d.u :: seen) := by
  simp [seenAfter, h, hm]

lemma mem_seenAfter (q : String) : ∀ (ds : List Doc) (seen : List String) (p : String),
    p ∈ seenAfter q ds seen ↔
      p ∈ seen ∨ ∃ d, d ∈ ds ∧ (scoreOf q d).isSome = true ∧ stripFrag d.u = p := by
  intro ds
  induction ds with
  | nil => intro seen p; simp [seenAfter]
  | cons d ds ih =>
    intro seen p
    cases h : scoreOf q d with
    | none =>
      rw [seenAfter_cons_none ds seen h, ih]
      constructor
      · rintro (hp | ⟨d', hd', hs', hu'⟩)
        · exact Or.inl hp
        · exact Or.inr ⟨d', List.mem_cons_of_mem d hd', hs', hu'⟩
      · rintro (hp | ⟨d', hd', hs', hu'⟩)
        · exact Or.inl hp
        · rcases List.mem_cons.mp hd' with rfl | hd''
          · rw [h] at hs'; cases hs'
          · exact Or.inr ⟨d', hd'', hs', hu'⟩
    | some s =>
      by_cases hm : stripFrag d.u ∈ seen
      · rw [seenAfter_cons_mem ds seen h hm, ih]
        constructor
        · rintro (hp | ⟨d', hd', hs', hu'⟩)
          · exact Or.inl hp
          · exact Or.inr ⟨d', List.mem_cons_of_mem d hd', hs', hu'⟩
        · rintro (hp | ⟨d', hd', hs', hu'⟩)
          · exact Or.inl hp
          · rcases List.mem_cons.mp hd' with rfl | hd''
            · exact Or.inl (hu' ▸ hm)
            · exact Or.inr ⟨d', hd'', hs', hu'⟩
      · rw [seenAfter_cons_new ds seen h hm, ih]
        constructor
        · rintro (hp | ⟨d', hd', hs', hu'⟩)
          · rcases List.mem_cons.mp hp with rfl | hp'
            · exact Or.inr ⟨d, List.mem_cons_self d ds, by simp [h], rfl⟩
            · exact Or.inl hp'
          · exact Or.inr ⟨d', List.mem_cons_of_mem d hd', hs', hu'⟩
        · rintro (hp | ⟨d', hd', hs', hu'⟩)
          · exact Or.inl (List.mem_cons_of_mem _ hp)
          · rcases List.mem_cons.mp hd' with rfl | hd''
            · exact Or.inl (hu' ▸ List.mem_cons_self _ _)
            · exact Or.inr ⟨d', hd'', hs', hu'⟩

lemma collectGo_skip (u q : String) (B : Doc) (ds : List Doc) (seen : List String)
    (h : stripFrag B.u ∈ seen) : collectGo u q (B :: ds) seen = collectGo u q ds seen := by
  simp only [collectGo]
  cases hs : scoreOf q B <;> simp [h]

lemma findDocInObjs_eq (loc : String) : ∀ objs : List IndexObj,
    findDocInObjs loc objs =
      (objs.foldr (fun o acc => o.documents ++ acc) []).find?
        (fun d => stripFrag d.u == loc) := by
  intro objs
  induction objs with
  | nil => rfl
  | cons o os ih =>
    simp only [findDocInObjs, List.foldr_cons, List.find?_append]
    cases h : o.documents.find? (fun d => stripFrag d.u == loc) with
    | none => simp [Option.or, ih]
    | some d => simp [Option.or]

lemma splitOnChar_ne_nil (sep : Char) : ∀ l : List Char, splitOnChar sep l ≠ [] := by
  intro l
  induction l with
  | nil => simp [splitOnChar]
  | cons c cs ih =>
    simp only [splitOnChar]
    by_cases h : c = sep
    · simp [h]
    · simp only [h, if_neg, ite_false]
      cases hs : splitOnChar sep cs with
      | nil => exact absurd hs ih
      | cons p ps => simp

lemma splitOnChar_length (sep : Char) : ∀ l : List Char,
    (splitOnChar sep l).length = l.count sep + 1 := by
  intro l
  induction l with
  | nil => simp [splitOnChar]
  | cons c cs ih =>
    simp only [splitOnChar]
    by_cases h : c = sep
    · simp [h, List.count_cons, ih]
    · simp only [h, if_neg, ite_false]
      cases hs : splitOnChar sep cs with
      | nil => exact absurd hs (splitOnChar_ne_nil sep cs)
      | cons p ps =>
        have : (p :: ps).length = cs.count sep + 1 := hs ▸ ih
        simp only [List.length_cons] at this ⊢
        simp [List.count_cons, h, this]

lemma count_dropWhile_eq (a : Char) (p : Char → Bool) (hpa : p a = false) (l : List Char) :
    (l.dropWhile p).count a = l.count a := by
  conv_rhs => rw [← List.takeWhile_append_dropWhile p l]
  rw [List.count_append]
  have hz : (l.takeWhile p).count a = 0 := by
    rw [List.count_eq_zero]
    intro hm
    have := List.mem_takeWhile_imp hm
    rw [hpa] at this
    cases this
  omega

lemma count_pyStrip (s : String) (a : Char) (ha : a.isWhitespace = false) :
    (pyStrip s).data.count a = s.data.count a := by
  simp only [pyStrip]
  rw [List.count_reverse,
    count_dropWhile_eq a Char.isWhitespace ha,
    List.count_reverse,
    count_dropWhile_eq a Char.isWhitespace ha]

lemma parseSitesGo_eq_none :
    ∀ (l : List String) (x : String), x ∈ l → parseSiteDef x = none →
      parseSitesGo l = none := by
  intro l
  induction l with
  | nil => intro x hx; cases hx
  | cons a as ih =>
    intro x hx hfx
    rcases List.mem_cons.mp hx with rfl | hx'
    · simp [parseSitesGo, hfx]
    · simp only [parseSitesGo]
      cases ha : parseSiteDef a with
      | none => rfl
      | some kv => rw [ih x hx' hfx]

lemma dropWhile_head_false {p : Char → Bool} :
    ∀ {l : List Char} {x : Char} {xs : List Char}, l.dropWhile p = x :: xs → p x = false := by
  intro l
  induction l with
  | nil => intro x xs h; cases h
  | cons c cs ih =>
    intro x xs h
    by_cases hc : p c
    · rw [List.dropWhile_cons_of_pos hc] at h
      exact ih h
    · rw [List.dropWhile_cons_of_neg hc] at h
      cases h
      simpa using hc

/-! ### Claim theorems -/

/-- Claim C1: the claim states that when an index fetch fails, the in-flight
registration for that index URL is cleared, so that the next search or
get-page call starts a fresh fetch.  The code does the opposite: evaluating
the embedded load phase at the failing input shows the failed task stays
registered in `_loading`, and the next call re-awaits the completed-but-failed
task and re-raises its failure (no fresh fetch), even though a fresh fetch
would have succeeded. -/
theorem claim1_failure_keeps_inflight_registered :
    toolStep { cache := none, inflight := none } Resolution.failure =
      ({ cache := none, inflight := some TaskPhase.doneFail }, ToolReply.hardFailure) ∧
    toolStep { cache := none, inflight := some TaskPhase.doneFail }
        (Resolution.success (IndexData.single { documents := [] })) =
      ({ cache := none, inflight := some TaskPhase.doneFail }, ToolReply.hardFailure) :=
  ⟨rfl, rfl⟩

/-- Claim C4: the Ranker's score is exactly the spec's formula: 100 when the full
lowercase query is a substring of the lowercase title or breadcrumb-join;
otherwise 10 times the number of query word tokens (counted positionally)
that are substrings, provided at least one token matches; otherwise the
record is skipped entirely by the collection loop. -/
theorem claim4_score_formula : ∀ (q : String) (d : Doc),
    scoreOf q d = specScore q d ∧
    (∀ (u : String) (ds : List Doc) (seen : List String),
      scoreOf q d = none → collectGo u q (d :: ds) seen = collectGo u q ds seen) := by
  intro q d
  constructor
  · simp only [scoreOf, specScore, phraseHit, matchCount]
    by_cases hp :
        (strContains (titleLower d) (pyLower q) || strContains (crumbJoin d) (pyLower q)) = true
    · simp [hp]
    · rw [List.countP_eq_length_filter]
      by_cases ha : (pyWords (pyLower q)).any (fun w => wordHit w d) = true
      · have hl : 0 < ((pyWords (pyLower q)).filter (fun w => wordHit w d)).length := by
          rcases List.any_eq_true.mp ha with ⟨w, hw, hww⟩
          exact List.length_pos_of_mem (List.mem_filter.mpr ⟨hw, hww⟩)
        simp [hp, ha, hl, Nat.mul_comm]
      · have hl : ¬ 0 < ((pyWords (pyLower q)).filter (fun w => wordHit w d)).length := by
          intro hpos
          rcases List.exists_mem_of_length_pos hpos with ⟨w, hw⟩
          rcases List.mem_filter.mp hw with ⟨hw1, hw2⟩
          exact ha (List.any_eq_true.mpr ⟨w, hw1, hw2⟩)
        simp [hp, ha, hl]
  · intro u ds seen h
    simp [collectGo, h]

/-- Claim C9: a `LUNR_SITES` entry parses successfully if and only if it contains
exactly one `=` character (the two-element unpacking of `split("=")`); in
particular an index URL with a query string such as
`key=https://site/search-index.json?v=2` fails, and any bad entry in a
non-empty configuration aborts the whole startup with no partial recovery. -/
lemma parseSiteDef_isSome_iff (e : String) :
    (parseSiteDef e).isSome = true ↔ e.data.count '=' = 1 := by
  have hcount : (pyStrip e).data.count '=' = e.data.count '=' :=
    count_pyStrip e '=' (by decide)
  have hlen : (splitOnChar '=' (pyStrip e).data).length = e.data.count '=' + 1 := by
    rw [splitOnChar_length, hcount]
  constructor
  · intro hs
    simp only [parseSiteDef] at hs
    rcases hsp : splitOnChar '=' (pyStrip e).data with _ | ⟨k, _ | ⟨v, _ | _⟩⟩ <;>
      rw [hsp] at hs hlen <;> simp at hs hlen ⊢ <;> omega
  · intro hc
    simp only [parseSiteDef]
    rcases hsp : splitOnChar '=' (pyStrip e).data with _ | ⟨k, _ | ⟨v, _ | _⟩⟩ <;>
      rw [hsp] at hlen <;> simp at hlen ⊢ <;> omega

theorem claim9_entry_parses_iff_one_eq : ∀ e : String,
    ((parseSiteDef e).isSome = true ↔ e.data.count '=' = 1) ∧
    parseSiteDef "key=https://site/search-index.json?v=2" = none ∧
    (∀ cfg eb : String, cfg ≠ "" → eb ∈ siteEntries cfg →
      eb.data.count '=' ≠ 1 → parseSites cfg = none) := by
  intro e
  refine ⟨parseSiteDef_isSome_iff e, by decide, ?_⟩
  intro cfg eb hcfg hmem hbad
  have hnone : parseSiteDef eb = none := by
    cases hpe : parseSiteDef eb with
    | none => rfl
    | some kv =>
      exact absurd ((parseSiteDef_isSome_iff eb).mp (by rw [hpe]; rfl)) hbad
  simp only [parseSites, hcfg, if_neg, ite_false]
  exact parseSitesGo_eq_none (siteEntries cfg) eb hmem hnone

/-- Witness for C4 at a concrete non-matching record: query `zzz` scores
`none` on a record titled `Apple`, and the collection loop skips it. -/
theorem claim4_witness :
    scoreOf "zzz" { t := "Apple", u := "/x/", b := [] } =
      specScore "zzz" { t := "Apple", u := "/x/", b := [] } ∧
    collectGo "" "zzz" [{ t := "Apple", u := "/x/", b := [] }] [] =
      collectGo "" "zzz" [] [] :=
  ⟨(claim4_score_formula "zzz" { t := "Apple", u := "/x/", b := [] }).1,
   (claim4_score_formula "zzz" { t := "Apple", u := "/x/", b := [] }).2 "" [] [] (by decide)⟩

/-- Witness for C9: a well-formed entry satisfies the iff, and a
configuration whose second entry has two `=` aborts parsing. -/
theorem claim9_witness :
    ((parseSiteDef "mysite=https://x/i.json").isSome = true ↔
      ("mysite=https://x/i.json" : String).data.count '=' = 1) ∧
    parseSites "a=b,c=d=e" = none :=
  ⟨(claim9_entry_parses_iff_one_eq "mysite=https://x/i.json").1,
   (claim9_entry_parses_iff_one_eq "").2.2 "a=b,c=d=e" "c=d=e"
     (by decide) (by decide) (by decide)⟩

/-- Claim C10: the content base URL is the index URL with everything from the
last `/` onward removed (so the remainder decomposes the index URL as
`base_url ++ "/" ++ t` with `t` slash-free), and an index URL containing
no `/` at all is its own base URL. -/
lemma lastSplit : ∀ l : List Char, '/' ∈ l →
    l = ((l.reverse.dropWhile (fun c => c ≠ '/')).drop 1).reverse ++
      '/' :: (l.reverse.takeWhile (fun c => c ≠ '/')).reverse ∧
    '/' ∉ (l.reverse.takeWhile (fun c => c ≠ '/')).reverse := by
  intro l hmem
  have hrev : '/' ∈ l.reverse := by simpa using hmem
  have hdrop : l.reverse.dropWhile (fun c => c ≠ '/') ≠ [] := by
    intro hnil
    rw [List.dropWhile_eq_nil_iff] at hnil
    have := hnil '/' hrev
    simp at this
  constructor
  · rcases hd : l.reverse.dropWhile (fun c => c ≠ '/') with _ | ⟨x, xs⟩
    · exact absurd hd hdrop
    · have hx : (fun c => decide (c ≠ '/')) x = false := dropWhile_head_false hd
      have hx' : x = '/' := by
        by_contra hne
        simp [hne] at hx
      have hsplit : l.reverse.takeWhile (fun c => c ≠ '/') ++ (x :: xs) = l.reverse := by
        rw [← hd]
        exact List.takeWhile_append_dropWhile _ l.reverse
      subst hx'
      conv_lhs => rw [← List.reverse_reverse l, ← hsplit]
      simp
  · intro hmt
    have hmt' : '/' ∈ l.reverse.takeWhile (fun c => c ≠ '/') := by simpa using hmt
    have := List.mem_takeWhile_imp hmt'
    simp at this

theorem claim10_base_url_strips_last_segment : ∀ s : String,
    (s.data.contains '/' = false → base_url s = s) ∧
    (s.data.contains '/' = true →
      ∃ t : String, s = base_url s ++ "/" ++ t ∧ '/' ∉ t.data) := by
  intro s
  constructor
  · intro h
    have hnot : '/' ∉ s.data := by simpa using h
    simp [base_url, hnot]
  · intro h
    have hmem : '/' ∈ s.data := by simpa using h
    obtain ⟨hdecomp, hfree⟩ := lastSplit s.data hmem
    refine ⟨String.mk (s.data.reverse.takeWhile (fun c => c ≠ '/')).reverse, ?_, hfree⟩
    apply String.ext
    rw [String.data_append, String.data_append]
    have hb : (base_url s).data =
        ((s.data.reverse.dropWhile (fun c => c ≠ '/')).drop 1).reverse := by
      rw [base_url, if_pos h]
      rfl
    rw [hb]
    conv_lhs => rw [hdecomp]
    simp

/-- Witness for C10 at the README's example index URL: the base URL drops
`/search-index.json`, and the decomposition holds. -/
theorem claim10_witness :
    base_url "https://your-site.com/search-index.json" = "https://your-site.com" ∧
    (∃ t : String, "https://your-site.com/search-index.json" =
      base_url "https://your-site.com/search-index.json" ++ "/" ++ t ∧ '/' ∉ t.data) :=
  ⟨by decide,
   (claim10_base_url_strips_last_segment "https://your-site.com/search-index.json").2
     (by decide)⟩

/-- Claim C7: the get-page lookup strips any fragment from the location, keeps
only the path component when the result is a fully-qualified URL, selects
the first record (in flattened traversal order) whose base path is
string-equal to the stripped location, and otherwise reports a not-found
error carrying the original unstripped location; any record it finds has a
base path equal to the stripped location and belongs to the index. -/
theorem claim7_page_lookup : ∀ (idx : IndexData) (loc : String),
    (get_page_lookup idx loc =
      match (allDocs idx).find? (fun d => stripFrag d.u == resolveLoc loc) with
      | some d => PageLookup.found d
      | none => PageLookup.notFound ("Page not found: " ++ loc)) ∧
    (∀ d, get_page_lookup idx loc = PageLookup.found d →
      stripFrag d.u = resolveLoc loc ∧ d ∈ allDocs idx) ∧
    resolveLoc "https://site.example/docs/x/#frag" = "/docs/x/" := by
  intro idx loc
  have hfind : findDocInObjs (resolveLoc loc) (allObjs idx) =
      (allDocs idx).find? (fun d => stripFrag d.u == resolveLoc loc) :=
    findDocInObjs_eq (resolveLoc loc) (allObjs idx)
  refine ⟨?_, ?_, by decide⟩
  · simp only [get_page_lookup, hfind]
  · intro d hd
    simp only [get_page_lookup, hfind] at hd
    cases hf : (allDocs idx).find? (fun d => stripFrag d.u == resolveLoc loc) with
    | none => rw [hf] at hd; cases hd
    | some d' =>
      rw [hf] at hd
      cases hd
      constructor
      · have := List.find?_some hf
        simpa using this
      · exact List.mem_of_find?_eq_some hf

/-- Witness for C7 at a concrete index and fully-qualified location. -/
theorem claim7_witness :
    stripFrag ("/docs/x/#intro" : String) =
      resolveLoc "https://site.example/docs/x/#frag" ∧
    ({ t := "Getting Started", u := "/docs/x/#intro", b := ["Docs"] } : Doc) ∈
      allDocs (IndexData.single
        { documents := [{ t := "Getting Started", u := "/docs/x/#intro", b := ["Docs"] }] }) :=
  (claim7_page_lookup
    (IndexData.single
      { documents := [{ t := "Getting Started", u := "/docs/x/#intro", b := ["Docs"] }] })
    "https://site.example/docs/x/#frag").2.1
    { t := "Getting Started", u := "/docs/x/#intro", b := ["Docs"] } (by decide)

/-- Claim C8: when the matched record's content fetch returns a non-200 status
or a transport error, `get_page_tool` still returns a page payload with the
record's title, breadcrumb and resolved content URL, the content replaced
by a placeholder naming the title and the status code (or the error
description); the failure is never propagated as a hard failure. -/
theorem claim8_degraded_success : ∀ (conv : String → String) (idx : IndexData)
    (bUrl loc : String) (d : Doc) (st : Nat) (body msg : String),
    get_page_lookup idx loc = PageLookup.found d →
    (st ≠ 200 →
      get_page_tool_model conv idx bUrl loc (FetchOutcome.ok st body) =
        PageResponse.page
          { title := d.t, url := bUrl ++ resolveLoc loc, path := d.b,
            content := "# " ++ d.t ++ "\n\nContent not available (HTTP " ++
              toString st ++ ")" }) ∧
    (get_page_tool_model conv idx bUrl loc (FetchOutcome.error msg) =
      PageResponse.page
        { title := d.t, url := bUrl ++ resolveLoc loc, path := d.b,
          content := "# " ++ d.t ++ "\n\nError fetching content: " ++ msg }) := by
  intro conv idx bUrl loc d st body msg hfound
  constructor
  · intro hst
    simp only [get_page_tool_model, hfound, render_page]
    simp [hst]
  · simp only [get_page_tool_model, hfound, render_page]

/-- Witness for C8: a 404 content fetch and a transport error at a
concrete index, record and location. -/
theorem claim8_witness :
    get_page_tool_model id
        (IndexData.single
          { documents := [{ t := "Getting Started", u := "/docs/x/#intro", b := ["Docs"] }] })
        "https://site.example" "/docs/x/" (FetchOutcome.ok 404 "gone") =
      PageResponse.page
        { title := "Getting Started", url := "https://site.example" ++ resolveLoc "/docs/x/",
          path := ["Docs"],
          content := "# Getting Started" ++ "\n\nContent not available (HTTP " ++
            toString (404 : Nat) ++ ")" } ∧
    get_page_tool_model id
        (IndexData.single
          { documents := [{ t := "Getting Started", u := "/docs/x/#intro", b := ["Docs"] }] })
        "https://site.example" "/docs/x/" (FetchOutcome.error "timeout") =
      PageResponse.page
        { title := "Getting Started", url := "https://site.example" ++ resolveLoc "/docs/x/",
          path := ["Docs"],
          content := "# Getting Started" ++ "\n\nError fetching content: " ++ "timeout" } := by
  have h := claim8_degraded_success id
    (IndexData.single
      { documents := [{ t := "Getting Started", u := "/docs/x/#intro", b := ["Docs"] }] })
    "https://site.example" "/docs/x/"
    { t := "Getting Started", u := "/docs/x/#intro", b := ["Docs"] }
    404 "gone" "timeout" (by decide)
  exact ⟨h.1 (by decide), h.2⟩

lemma reachable_pending_cache_none :
    ∀ s : CoordState, Reachable s → s.inflight = some TaskPhase.pending → s.cache = none := by
  intro s hs
  induction hs with
  | init => intro h; cases h
  | tool r hs ih =>
    rename_i s'
    obtain ⟨c, f⟩ := s'
    cases c with
    | some v => exact ih
    | none =>
      cases f with
      | none => cases r <;> simp [toolStep, awaitPending]
      | some ph =>
        cases ph with
        | pending => cases r <;> simp [toolStep, awaitPending]
        | doneFail => simp [toolStep]
        | doneSuccess d => simp [toolStep]
  | bg r hs ih =>
    rename_i s'
    obtain ⟨c, f⟩ := s'
    cases f with
    | none => exact ih
    | some ph =>
      cases ph with
      | pending =>
        have hc : c = none := ih rfl
        subst hc
        cases r <;> simp [bgStep]
      | doneFail => exact ih
      | doneSuccess d => exact ih

/-- Claim C6: once a value is cached for a source's index URL, every later search
or get-page call returns that very value with the state unchanged — no new
fetch is registered, and the reply does not depend on any task resolution
(no wait) — and no step of the system (tool call or background task
completion) ever changes or removes the cached value. -/
theorem claim6_cache_is_permanent : ∀ s : CoordState, Reachable s →
    ∀ v : IndexData, s.cache = some v →
      (∀ r, toolStep s r = (s, ToolReply.ok v)) ∧
      (∀ r, (toolStep s r).1.cache = some v ∧ (bgStep s r).cache = some v) := by
  intro s hs v hv
  have htool : ∀ r, toolStep s r = (s, ToolReply.ok v) := by
    intro r
    obtain ⟨c, f⟩ := s
    cases hv
    rfl
  refine ⟨htool, ?_⟩
  intro r
  refine ⟨by rw [htool r]; exact hv, ?_⟩
  have hnp : s.inflight ≠ some TaskPhase.pending := by
    intro hp
    rw [reachable_pending_cache_none s hs hp] at hv
    cases hv
  obtain ⟨c, f⟩ := s
  cases f with
  | none => exact hv
  | some ph =>
    cases ph with
    | pending => exact absurd rfl hnp
    | doneFail => exact hv
    | doneSuccess d => exact hv

/-- Witness for C6: a reachable state with a cached index (reached by one
successful load) replies with the cached value and keeps it across steps. -/
theorem claim6_witness :
    toolStep { cache := some (IndexData.single { documents := [] }), inflight := none }
        Resolution.failure =
      ({ cache := some (IndexData.single { documents := [] }), inflight := none },
        ToolReply.ok (IndexData.single { documents := [] })) ∧
    (bgStep { cache := some (IndexData.single { documents := [] }), inflight := none }
        Resolution.failure).cache = some (IndexData.single { documents := [] }) := by
  have hr : Reachable { cache := some (IndexData.single { documents := [] }), inflight := none } := by
    have h0 := Reachable.tool (s := { cache := none, inflight := none })
      (Resolution.success (IndexData.single { documents := [] })) Reachable.init
    simpa [toolStep, awaitPending] using h0
  have h := claim6_cache_is_permanent _ hr (IndexData.single { documents := [] }) rfl
  exact ⟨h.1 Resolution.failure, (h.2 Resolution.failure).2⟩

/-- Claim C5: the ranked output is sorted by the key "descending score, ties by
ascending original-case title" (`keyLE`), the returned list is the first
`limit` elements of that ordering with the transient score stripped, and
growing or shrinking `limit` only truncates — it never reorders the
retained prefix. -/
theorem claim5_order_and_truncation : ∀ (idx : IndexData) (q u : String),
    List.Sorted keyLE (rankedSorted idx q u) ∧
    (∀ lim, search_items idx q lim u = ((rankedSorted idx q u).map stripScore).take lim) ∧
    (∀ l₁ l₂, l₁ ≤ l₂ → search_items idx q l₁ u = (search_items idx q l₂ u).take l₁) := by
  intro idx q u
  have hsorted : List.Sorted keyLE (rankedSorted idx q u) :=
    List.sorted_insertionSort keyLE (collect idx q u)
  have heq : ∀ lim, search_items idx q lim u =
      ((rankedSorted idx q u).map stripScore).take lim := by
    intro lim
    simp only [search_items, searchDocs, rankedSorted, collect, allDocs]
    rw [List.map_take]
  refine ⟨hsorted, heq, ?_⟩
  intro l₁ l₂ hle
  rw [heq l₁, heq l₂, List.take_take, Nat.min_eq_left hle]

/-- Witness for C5 at a concrete index, query and pair of limits. -/
theorem claim5_witness :
    search_items (IndexData.single
        { documents := [{ t := "Zebra", u := "/z/", b := [] },
                        { t := "Apple", u := "/a/", b := [] }] })
      "a e" 1 "" =
    (search_items (IndexData.single
        { documents := [{ t := "Zebra", u := "/z/", b := [] },
                        { t := "Apple", u := "/a/", b := [] }] })
      "a e" 2 "").take 1 :=
  (claim5_order_and_truncation
    (IndexData.single
      { documents := [{ t := "Zebra", u := "/z/", b := [] },
                      { t := "Apple", u := "/a/", b := [] }] })
    "a e" "").2.2 1 2 (by decide)

/-- Claim C3: deduplication keys records by base path and keeps the first
matching record in flattened traversal order, before sorting: a later
record sharing the first one's base path is dropped from the pipeline
entirely — the whole output (any limit) is as if it were absent, whatever
its score — and when no earlier matching record shares the base path, the
first-seen record's entry (its title and its score) is in the collected
results. -/
theorem claim3_dedup_first_seen : ∀ (l₁ l₂ l₃ : List Doc) (A B : Doc) (q u : String)
    (lim : Nat),
    (scoreOf q A).isSome = true → stripFrag A.u = stripFrag B.u →
    (searchDocs (l₁ ++ A :: (l₂ ++ B :: l₃)) q lim u =
      searchDocs (l₁ ++ A :: (l₂ ++ l₃)) q lim u) ∧
    ((∀ d, d ∈ l₁ → (scoreOf q d).isSome = true → stripFrag d.u ≠ stripFrag A.u) →
      ∃ s, scoreOf q A = some s ∧
        mkResult u A s ∈ collectGo u q (l₁ ++ A :: (l₂ ++ B :: l₃)) []) := by
  intro l₁ l₂ l₃ A B q u lim hA hbase
  obtain ⟨sA, hsA⟩ := Option.isSome_iff_exists.mp hA
  constructor
  · have hassoc : ∀ tail : List Doc, l₁ ++ A :: (l₂ ++ tail) = (l₁ ++ A :: l₂) ++ tail := by
      intro tail
      simp
    have hmemB : stripFrag B.u ∈ seenAfter q (l₁ ++ A :: l₂) [] := by
      rw [mem_seenAfter]
      exact Or.inr ⟨A, by simp, hA, hbase⟩
    have hcoll : collectGo u q (l₁ ++ A :: (l₂ ++ B :: l₃)) [] =
        collectGo u q (l₁ ++ A :: (l₂ ++ l₃)) [] := by
      rw [hassoc (B :: l₃), hassoc l₃,
        collectGo_append u q (l₁ ++ A :: l₂) (B :: l₃) [],
        collectGo_append u q (l₁ ++ A :: l₂) l₃ [],
        collectGo_skip u q B l₃ _ hmemB]
    simp only [searchDocs, hcoll]
  · intro hfirst
    have hnot : stripFrag A.u ∉ seenAfter q l₁ [] := by
      rw [mem_seenAfter]
      rintro (hnil | ⟨d, hd, hds, hdu⟩)
      · cases hnil
      · exact hfirst d hd hds hdu
    refine ⟨sA, hsA, ?_⟩
    rw [collectGo_append]
    apply List.mem_append_right
    simp only [collectGo, hsA, hnot, if_neg, ite_false]
    exact List.mem_cons_self _ _

/-- Witness for C3, the spec's own scenario: a first-seen record scoring 10
for base path `/x/` suppresses a later exact-phrase record scoring 100 with
the same base path, and the first-seen entry is collected. -/
theorem claim3_witness :
    searchDocs [{ t := "Apple", u := "/x/", b := [] },
                { t := "Banana apple zzz", u := "/x/#sec", b := [] }] "apple zzz" 10 "" =
      searchDocs [{ t := "Apple", u := "/x/", b := [] }] "apple zzz" 10 "" ∧
    (∃ s, scoreOf "apple zzz" { t := "Apple", u := "/x/", b := [] } = some s ∧
      mkResult "" { t := "Apple", u := "/x/", b := [] } s ∈
        collectGo "" "apple zzz"
          [{ t := "Apple", u := "/x/", b := [] },
           { t := "Banana apple zzz", u := "/x/#sec", b := [] }] []) := by
  have h := claim3_dedup_first_seen [] [] [] { t := "Apple", u := "/x/", b := [] }
    { t := "Banana apple zzz", u := "/x/#sec", b := [] } "apple zzz" "" 10
    (by decide) (by decide)
  exact ⟨h.1, h.2 (fun d hd => absurd hd (List.not_mem_nil d))⟩

/-- Claim C2 counterexample: with the 12-word query `a b c d e f g h i j k l`, a
record whose title matches only 11 of the 12 word tokens (a proper subset;
no exact-phrase hit) scores 110 — more than 90 — and the ranked output
places it before the record whose title contains the full query string
(score 100), refuting both parts of the claim. -/
theorem claim2_counterexample :
    phraseHit "a b c d e f g h i j k l"
      { t := "b c d e f g h i j k l", u := "/b/", b := [] } = false ∧
    matchCount "a b c d e f g h i j k l"
      { t := "b c d e f g h i j k l", u := "/b/", b := [] } = 11 ∧
    (pyWords (pyLower "a b c d e f g h i j k l")).length = 12 ∧
    scoreOf "a b c d e f g h i j k l"
      { t := "b c d e f g h i j k l", u := "/b/", b := [] } = some 110 ∧
    scoreOf "a b c d e f g h i j k l"
      { t := "a b c d e f g h i j k l", u := "/a/", b := [] } = some 100 ∧
    search_items
        (IndexData.single
          { documents := [{ t := "a b c d e f g h i j k l", u := "/a/", b := [] },
                          { t := "b c d e f g h i j k l", u := "/b/", b := [] }] })
        "a b c d e f g h i j k l" 10 "" =
      [{ title := "b c d e f g h i j k l", url := "/b/", path := [] },
       { title := "a b c d e f g h i j k l", url := "/a/", path := [] }] := by
  decide

/-- Claim C2 amended: provided the query has at most 10 word tokens, an
exact-phrase record scores 100, and a record matching at least one but not
all of the query's word tokens (and without an exact-phrase hit) scores at
most 90 and is placed strictly after the exact-phrase record by the sort
key; queries with more than 10 word tokens can make a word-subset match
score above 100 and sort ahead. -/
theorem claim2_amended_phrase_outranks_subset : ∀ (q : String) (d₁ d₂ : Doc),
    (pyWords (pyLower q)).length ≤ 10 →
    phraseHit q d₁ = true →
    phraseHit q d₂ = false →
    0 < matchCount q d₂ →
    matchCount q d₂ < (pyWords (pyLower q)).length →
    scoreOf q d₁ = some 100 ∧
    ∃ s, scoreOf q d₂ = some s ∧ s ≤ 90 ∧
      ∀ r₁ r₂ : RankedResult, r₁.score = 100 → r₂.score = s →
        resultLE r₁ r₂ = true ∧ resultLE r₂ r₁ = false := by
  intro q d₁ d₂ hw h₁ h₂ hpos hsub
  constructor
  · simp [scoreOf, h₁]
  · have hany : (pyWords (pyLower q)).any (fun w => wordHit w d₂) = true := by
      rw [matchCount, List.countP_eq_length_filter] at hpos
      rcases List.exists_mem_of_length_pos hpos with ⟨w, hwf⟩
      rcases List.mem_filter.mp hwf with ⟨hw1, hw2⟩
      exact List.any_eq_true.mpr ⟨w, hw1, hw2⟩
    refine ⟨matchCount q d₂ * 10, by simp [scoreOf, h₂, hany], by omega, ?_⟩
    intro r₁ r₂ hr₁ hr₂
    have hlt : r₂.score < r₁.score := by omega
    constructor
    · exact (resultLE_iff r₁ r₂).mpr (Or.inl hlt)
    · rcases hcon : resultLE r₂ r₁ with _ | _
      · rfl
      · rcases (resultLE_iff r₂ r₁).mp hcon with hgt | ⟨heq, _⟩
        · omega
        · omega

/-- Witness for the amended C2 at a two-word query: `alpha beta` against an
exact-phrase title and a one-token-matching title. -/
theorem claim2_witness :
    scoreOf "alpha beta" { t := "Alpha beta guide", u := "/g/", b := [] } = some 100 ∧
    ∃ s, scoreOf "alpha beta" { t := "Alpha only", u := "/o/", b := [] } = some s ∧
      s ≤ 90 ∧
      ∀ r₁ r₂ : RankedResult, r₁.score = 100 → r₂.score = s →
        resultLE r₁ r₂ = true ∧ resultLE r₂ r₁ = false :=
  claim2_amended_phrase_outranks_subset "alpha beta"
    { t := "Alpha beta guide", u := "/g/", b := [] }
    { t := "Alpha only", u := "/o/", b := [] }
    (by decide) (by decide) (by decide) (by decide) (by decide)

end LunrMcp
